import Mathlib

/-!
Shallow embedding of `src/volvelle-wasm/src/fe.rs` (GF(32) field arithmetic
and the bech32/codex32 polymod checksum engine), together with theorems
checking the specification's claims against it.

Field elements (`Fe`, a newtype over `u8` in the source) are modelled as
`Nat`; wherever `u8` overflow can occur (the `fe2 <<= 1` in multiplication)
the model reduces modulo 256 explicitly.
-/

/-- The field element type: the source stores a `u8`. -/
abbrev Fe := Nat

/-- Static zero object used by out-of-range polynomial indexing. -/
def ZERO : Fe := 0

/-- The alphabet constant `BECH32_ALPHABET`, transcribed character by
character from the source byte string (note: it contains the byte for the
letter S at both index 16 and index 20). -/
def BECH32_ALPHABET : List Char :=
  ['Q', 'P', 'Z', 'R', 'Y', '9', 'X', '8',
   'G', 'F', '2', 'T', 'V', 'D', 'W', '0',
   'S', '3', 'J', 'N', 'S', '4', 'K', 'H',
   'C', 'E', '6', 'M', 'U', 'A', '7', 'L']

/-- The codex32 generator polynomial constant. -/
def CODEX32_POLYMOD : List Fe :=
  [25, 27, 17, 8, 0, 25, 25, 25, 31, 27, 24, 16, 16]

/-- The bech32 generator polynomial constant. -/
def BECH32_POLYMOD : List Fe := [29, 22, 20, 21, 29, 18]

/-- `Fe::zero`: the additive identity. -/
def Fe.zero : Fe := 0

/-- `Fe::one`: the multiplicative identity. -/
def Fe.one : Fe := 1

/-- `Fe::from_bin`: wraps the `u8` argument unchanged (the argument is a
byte, so theorems about it quantify over `n < 256`). -/
def Fe.from_bin (n : Nat) : Fe := n

/-- `From<Fe> for char`: table lookup `BECH32_ALPHABET[fe.0]`.  Rust
indexing panics out of bounds; the model returns `none` there. -/
def Fe.to_char (fe : Fe) : Option Char := BECH32_ALPHABET.get? fe

/-- `TryFrom<char> for Fe`: the 32-arm character match, with the catch-all
arm producing the `format!("invalid bech32 character {}", x)` error. -/
def Fe.try_from (ch : Char) : Except String Fe :=
  match ch with
  | 'Q' => Except.ok 0x00
  | 'P' => Except.ok 0x01
  | 'Z' => Except.ok 0x02
  | 'R' => Except.ok 0x03
  | 'Y' => Except.ok 0x04
  | '9' => Except.ok 0x05
  | 'X' => Except.ok 0x06
  | '8' => Except.ok 0x07
  | 'G' => Except.ok 0x08
  | 'F' => Except.ok 0x09
  | '2' => Except.ok 0x0a
  | 'T' => Except.ok 0x0b
  | 'V' => Except.ok 0x0c
  | 'D' => Except.ok 0x0d
  | 'W' => Except.ok 0x0e
  | '0' => Except.ok 0x0f
  | 'S' => Except.ok 0x10
  | '3' => Except.ok 0x11
  | 'J' => Except.ok 0x12
  | 'N' => Except.ok 0x13
  | '5' => Except.ok 0x14
  | '4' => Except.ok 0x15
  | 'K' => Except.ok 0x16
  | 'H' => Except.ok 0x17
  | 'C' => Except.ok 0x18
  | 'E' => Except.ok 0x19
  | '6' => Except.ok 0x1a
  | 'M' => Except.ok 0x1b
  | 'U' => Except.ok 0x1c
  | 'A' => Except.ok 0x1d
  | '7' => Except.ok 0x1e
  | 'L' => Except.ok 0x1f
  | x => Except.error ("invalid bech32 character " ++ String.singleton x)

/-- The set of characters accepted by `Fe.try_from` (its 32 match arms, in
value order: the arm for value v is the v-th entry of this list). -/
def TRYFROM_CHARS : List Char :=
  ['Q', 'P', 'Z', 'R', 'Y', '9', 'X', '8',
   'G', 'F', '2', 'T', 'V', 'D', 'W', '0',
   'S', '3', 'J', 'N', '5', '4', 'K', 'H',
   'C', 'E', '6', 'M', 'U', 'A', '7', 'L']

/-- `ops::Add for Fe`: bitwise xor of the two bytes. -/
def Fe.add (a b : Fe) : Fe := Nat.xor a b

/-- The `while self.0 > 0` loop of `ops::Mul for Fe`, one recursive call
per iteration.  `fe2` is a `u8` in the source, so its doubling is taken
modulo 256.  The fuel argument bounds the iteration count; `self` halves
each step, so fuel 8 is enough for any byte. -/
def Fe.mulLoop : Nat → Nat → Nat → Nat → Nat
  | 0, _, _, ret => ret
  | fuel + 1, a, fe2, ret =>
    if a = 0 then ret
    else
      Fe.mulLoop fuel (a / 2)
        (let fe3 := fe2 * 2 % 256
         if Nat.land fe3 32 = 32 then Nat.xor fe3 (32 + 8 + 1) else fe3)
        (if Nat.land a 1 = 1 then Nat.xor ret fe2 else ret)

/-- `ops::Mul for Fe`: carry-less multiply-and-reduce loop. -/
def Fe.mul (a b : Fe) : Fe := Fe.mulLoop 8 a b 0

/-- The polynomial type: the source wraps a `Vec<Fe>`. -/
abbrev FePoly := List Fe

/-- `ops::Index<usize> for FePoly`: `self.0.get(idx).unwrap_or(&ZERO)`. -/
def FePoly.index (p : FePoly) (idx : Nat) : Fe := (p.get? idx).getD ZERO

/-- The `retain` closure of `FePoly::normalize`, threading the
`seen_nonzero` flag through the list from the left. -/
def retainNormalize : Bool → List Fe → List Fe
  | _, [] => []
  | seen, e :: rest =>
    if (if e ≠ ZERO then true else seen) then
      e :: retainNormalize (if e ≠ ZERO then true else seen) rest
    else
      retainNormalize (if e ≠ ZERO then true else seen) rest

/-- `FePoly::normalize`: drop leading zero coefficients via `retain`. -/
def FePoly.normalize (p : FePoly) : FePoly := retainNormalize false p

/-- One iteration of the `for ch in &self.0` loop of `FePoly::polymod`:
capture `ret[0]` as the carry, run the shift loop
`for i in 0..modulus.len()-1 { ret[i] = ret[i+1] }`, write the new
coefficient at the hardcoded index 12, then run the feedback loop
`for i in 0..modulus.len() { ret[i] = ret[i] + c13 * modulus[i] }`. -/
def polymodStep (modulus : List Fe) (ret : List Fe) (ch : Fe) : List Fe :=
  (List.range modulus.length).foldl
    (fun r i =>
      r.set i (Fe.add (r.getD i ZERO) (Fe.mul (ret.getD 0 ZERO) (modulus.getD i ZERO))))
    ((((List.range (modulus.length - 1)).foldl
        (fun r i => r.set i (r.getD (i + 1) ZERO)) ret)).set 12 ch)

/-- The accumulator of `FePoly::polymod` just before normalization:
`vec![Fe(0); 13]` folded through `polymodStep` over the input. -/
def FePoly.polymodRaw (p : FePoly) (modulus : List Fe) : List Fe :=
  p.foldl (polymodStep modulus) (List.replicate 13 ZERO)

/-- `FePoly::polymod`: the shift-register loop followed by `normalize`. -/
def FePoly.polymod (p : FePoly) (modulus : List Fe) : FePoly :=
  FePoly.normalize (FePoly.polymodRaw p modulus)

/-- `FePoly::codex32_polymod`. -/
def FePoly.codex32_polymod (p : FePoly) : FePoly :=
  FePoly.polymod p CODEX32_POLYMOD

/-- `FePoly::bech32_polymod`. -/
def FePoly.bech32_polymod (p : FePoly) : FePoly :=
  FePoly.polymod p BECH32_POLYMOD

/-- `FePoly::hrp_residue`: push 1, push each byte's high bits, push 0,
push each byte's low bits, extend with `modulus.len()` zeros, then reduce
with `polymod`.  The string argument is its byte sequence. -/
def FePoly.hrp_residue (s : List Nat) (modulus : List Fe) : FePoly :=
  FePoly.polymod
    ((s.foldl (fun acc ch => acc ++ [Fe.from_bin (Nat.land ch 0x1f)])
        ((s.foldl (fun acc ch => acc ++ [Fe.from_bin (Nat.shiftRight ch 5)])
            [Fe.one]) ++ [Fe.zero]))
      ++ List.replicate modulus.length (Fe.zero))
    modulus

/-- `FePoly::codex32_hrp_residue`. -/
def FePoly.codex32_hrp_residue (s : List Nat) : FePoly :=
  FePoly.hrp_residue s CODEX32_POLYMOD

/-- `FePoly::bech32_hrp_residue`. -/
def FePoly.bech32_hrp_residue (s : List Nat) : FePoly :=
  FePoly.hrp_residue s BECH32_POLYMOD

/-! ### Specification-side definitions

These follow the words of the specification (not the source), for
comparison with the source-derived definitions above. -/

/-- Spec-side carry-less (GF(2)-coefficient) product of two 5-bit
values: xor together the shifts of `b` by each set bit of `a`. -/
def clmul (a b : Nat) : Nat :=
  (List.range 5).foldl
    (fun acc i => if Nat.testBit a i then Nat.xor acc (Nat.shiftLeft b i) else acc) 0

/-- Spec-side reduction of a (at most 9-bit) carry-less product modulo
the degree-5 generator polynomial whose bit pattern sets bits 5, 3 and 0
(mask 0b101001 = 41): fold the mask in at each overflowing bit, highest
first. -/
def gfReduce (x : Nat) : Nat :=
  [8, 7, 6, 5].foldl
    (fun v k => if Nat.testBit v k then Nat.xor v (Nat.shiftLeft 41 (k - 5)) else v) x

/-- Spec-side GF(32) multiplication: carry-less multiply then reduce. -/
def gfMul (a b : Nat) : Nat := gfReduce (clmul a b)

/-- Spec-side expanded HRP coefficient sequence: the element 1, then one
coefficient per byte holding its high 3 bits, then a zero separator, then
one coefficient per byte holding its low 5 bits, then L padding zeros. -/
def hrpExpandSpec (s : List Nat) (L : Nat) : List Fe :=
  (1 : Fe) :: s.map (fun b => Nat.shiftRight b 5)
    ++ (0 : Fe) :: s.map (fun b => Nat.land b 0x1f)
    ++ List.replicate L (0 : Fe)

/-- Spec-side shift-register step over an accumulator of exactly L = `gen.length`
elements: capture element 0 as the carry, shift the rest down, place the
new coefficient at index L-1, and add carry times the generator's i-th
coefficient at every position i. -/
def specStep (gen : List Fe) (acc : List Fe) (ch : Fe) : List Fe :=
  (List.range gen.length).map
    (fun i => Fe.add ((acc.drop 1 ++ [ch]).getD i ZERO)
      (Fe.mul (acc.getD 0 ZERO) (gen.getD i ZERO)))

/-- Spec-side polymod: an all-zero accumulator of exactly `gen.length`
elements folded through `specStep`, then normalized. -/
def specPolymod (p : FePoly) (gen : List Fe) : FePoly :=
  FePoly.normalize (p.foldl (specStep gen) (List.replicate gen.length ZERO))

/-! ### Helper lemmas -/

/-- Every character in `TRYFROM_CHARS` converts successfully, to a value
at most 31. -/
lemma try_from_mem : ∀ ch ∈ TRYFROM_CHARS, ∃ v, Fe.try_from ch = Except.ok v ∧ v ≤ 31 := by
  intro ch h
  fin_cases h <;> exact ⟨_, rfl, by decide⟩

/-- Every character outside `TRYFROM_CHARS` hits the catch-all error arm. -/
lemma try_from_not_mem (ch : Char) (h : ch ∉ TRYFROM_CHARS) :
    Fe.try_from ch = Except.error ("invalid bech32 character " ++ String.singleton ch) := by
  unfold Fe.try_from
  split
  all_goals first
    | rfl
    | (exact absurd (by decide) h)

/-- Once the `seen_nonzero` flag is set, the retain closure keeps
everything. -/
lemma retain_true (l : List Fe) : retainNormalize true l = l := by
  induction l with
  | nil => rfl
  | cons e rest ih => simp [retainNormalize, ih]

/-- Normalization drops exactly the leading zeros. -/
lemma normalize_eq_dropWhile (l : List Fe) :
    FePoly.normalize l = l.dropWhile (fun e => e == ZERO) := by
  unfold FePoly.normalize
  induction l with
  | nil => rfl
  | cons e rest ih =>
    by_cases he : e = ZERO
    · subst he; simpa [retainNormalize, List.dropWhile] using ih
    · have hb : (e == ZERO) = false := beq_eq_false_iff_ne.mpr he
      simp [retainNormalize, he, List.dropWhile, hb, retain_true]

/-- After dropping leading zeros the head, if any, is nonzero. -/
lemma head_dropWhile_ne (l : List Fe) :
    (l.dropWhile (fun e => e == ZERO)).head? ≠ some ZERO := by
  induction l with
  | nil => simp [List.dropWhile]
  | cons e rest ih =>
    by_cases he : e = ZERO
    · simpa [List.dropWhile, he] using ih
    · have hb : (e == ZERO) = false := beq_eq_false_iff_ne.mpr he
      simp [List.dropWhile, hb]
      exact he

/-- Folding element-wise pushes over a list appends its image. -/
lemma foldl_push (f : Nat → Fe) (s : List Nat) (acc : List Fe) :
    s.foldl (fun a ch => a ++ [f ch]) acc = acc ++ s.map f := by
  induction s generalizing acc with
  | nil => simp
  | cons ch rest ih => simp [List.foldl, ih]

/-- The sequence that `hrp_residue` builds by pushes is exactly the
spec's expanded coefficient sequence. -/
lemma hrp_residue_eq (s : List Nat) (modulus : List Fe) :
    FePoly.hrp_residue s modulus = FePoly.polymod (hrpExpandSpec s modulus.length) modulus := by
  unfold FePoly.hrp_residue hrpExpandSpec
  rw [foldl_push, foldl_push]
  simp [Fe.one, Fe.zero, Fe.from_bin]

/-- Any `polymod` result is the nonzero-headed suffix of the raw
accumulator. -/
lemma polymod_normalized (q : FePoly) (modulus : List Fe) :
    (FePoly.polymod q modulus).head? ≠ some ZERO ∧
    FePoly.polymod q modulus
      = (FePoly.polymodRaw q modulus).dropWhile (fun e => e == ZERO) := by
  rw [FePoly.polymod, normalize_eq_dropWhile]
  exact ⟨head_dropWhile_ne _, rfl⟩

/-- Exhaustive check of GF(32) multiplication against the spec-side
carry-less multiply-and-reduce, identity and annihilator. -/
lemma mul_table : ∀ a < 32, ∀ b < 32,
    Fe.mul a b = gfMul a b ∧ Fe.mul a Fe.one = a ∧ Fe.mul a Fe.zero = Fe.zero := by decide

/-! ### Claim theorems -/

/-- C1: the claim states that `polymod` keeps an accumulator of exactly
L = generator-length elements (new coefficient at index L-1), so that
`bech32_polymod` equals the L = 6 shift-register reduction against the
bech32 generator.  The code instead hardcodes a 13-element accumulator
and writes each new coefficient at index 12: on the input polynomial
x (coefficients [1, 0]) the code's `bech32_polymod` returns the zero
polynomial while the claimed L = 6 shift register returns [1, 0]. -/
theorem C1_bech32_polymod_is_not_L6_shift_register :
    FePoly.bech32_polymod [Fe.one, Fe.zero] = []
    ∧ specPolymod [Fe.one, Fe.zero] BECH32_POLYMOD = [Fe.one, Fe.zero] :=
  ⟨rfl, rfl⟩

/-- C2: the claim states the character/field-element mapping is a
bijection, with `element_of(char_of(v)) = v` for every v in 0..31.  The
code's alphabet table holds the letter S at both index 16 and index 20
(where the character-to-element match and the standard bech32 alphabet
have the digit 5), so `char_of` sends both 16 and 20 to S and the round
trip at v = 20 yields 16. -/
theorem C2_roundtrip_fails_at_20 :
    Fe.to_char (20 : Fe) = some 'S' ∧ Fe.to_char (16 : Fe) = some 'S'
    ∧ Fe.try_from 'S' = Except.ok (16 : Fe) ∧ Fe.try_from '5' = Except.ok (20 : Fe) :=
  ⟨rfl, rfl, rfl, rfl⟩

/-- C3 counterexample: `Fe.from_bin` stores its byte argument unchanged,
so at n = 32 the stored value lies outside [0, 31], refuting the claim
that every construction path yields a value in that range. -/
theorem C3_from_bin_out_of_range : ¬ Fe.from_bin 32 ≤ 31 := by decide

/-- C3 (amended): `zero`, `one` and successful character conversion all
produce values in [0, 31], while `from_bin n` stores n unchanged, so its
value is in [0, 31] exactly when n ≤ 31. -/
theorem C3_construction_ranges (n : Nat) (ch : Char) (v : Fe) :
    Fe.zero ≤ 31 ∧ Fe.one ≤ 31
    ∧ (Fe.try_from ch = Except.ok v → v ≤ 31)
    ∧ (Fe.from_bin n ≤ 31 ↔ n ≤ 31) := by
  refine ⟨by decide, by decide, ?_, Iff.rfl⟩
  intro h
  by_cases hm : ch ∈ TRYFROM_CHARS
  · obtain ⟨v2, hv2, hle⟩ := try_from_mem ch hm
    rw [h] at hv2
    cases hv2
    exact hle
  · rw [try_from_not_mem ch hm] at h
    cases h

/-- C3 witness: the amended theorem applied at n = 40, ch = Q, v = 0. -/
theorem C3_construction_ranges_witness :
    ((0 : Fe) ≤ 31) ∧ (Fe.from_bin 40 ≤ 31 ↔ (40 : Nat) ≤ 31) :=
  ⟨(C3_construction_ranges 40 'Q' 0).2.2.1 rfl, (C3_construction_ranges 40 'Q' 0).2.2.2⟩

/-- C4 counterexample: converting the element `from_bin 32` to a
character indexes past the 32-entry alphabet table (a panic in the
source, `none` in the model), refuting the claim that element-to-char
conversion cannot fail for elements built by `from_bin` on arbitrary
bytes. -/
theorem C4_to_char_fails_at_32 : Fe.to_char (Fe.from_bin 32) = none := by decide

/-- C4 (amended): element-to-character conversion succeeds by table
lookup exactly for elements whose value is at most 31; for `from_bin n`
with n > 31 the lookup is out of bounds. -/
theorem C4_to_char_total_iff_in_range (n : Nat) :
    (n ≤ 31 → ∃ c, Fe.to_char (Fe.from_bin n) = some c)
    ∧ (31 < n → Fe.to_char (Fe.from_bin n) = none) := by
  constructor
  · intro h
    have hlt : Fe.from_bin n < BECH32_ALPHABET.length := by
      show n < 32
      omega
    exact ⟨_, List.get?_eq_get hlt⟩
  · intro h
    refine List.get?_eq_none.mpr ?_
    show 32 ≤ n
    omega

/-- C4 witness: the amended theorem applied at n = 5 and n = 40. -/
theorem C4_to_char_total_iff_in_range_witness :
    (∃ c, Fe.to_char (Fe.from_bin 5) = some c) ∧ Fe.to_char (Fe.from_bin 40) = none :=
  ⟨(C4_to_char_total_iff_in_range 5).1 (by decide),
   (C4_to_char_total_iff_in_range 40).2 (by decide)⟩

/-- C5: character-to-element conversion succeeds exactly on the 32
characters of the conversion alphabet, and any other character yields
the invalid-character error naming that character. -/
theorem C5_try_from_exactly_alphabet (ch : Char) :
    (ch ∈ TRYFROM_CHARS → ∃ v, Fe.try_from ch = Except.ok v)
    ∧ (ch ∉ TRYFROM_CHARS →
        Fe.try_from ch = Except.error ("invalid bech32 character " ++ String.singleton ch)) := by
  constructor
  · intro h
    obtain ⟨v, hv, _⟩ := try_from_mem ch h
    exact ⟨v, hv⟩
  · exact try_from_not_mem ch

/-- C5 witness: the theorem applied at the alphabet character Q and the
non-alphabet character 1. -/
theorem C5_try_from_exactly_alphabet_witness :
    (∃ v, Fe.try_from 'Q' = Except.ok v)
    ∧ Fe.try_from '1' = Except.error ("invalid bech32 character " ++ String.singleton '1') :=
  ⟨(C5_try_from_exactly_alphabet 'Q').1 (by decide),
   (C5_try_from_exactly_alphabet '1').2 (by decide)⟩

/-- C6: for every byte sequence and every generator, `hrp_residue`
reduces exactly the expanded sequence [1, high 3 bits of each byte, 0,
low 5 bits of each byte, generator-length zeros] through the same
`polymod` reduction with the supplied generator. -/
theorem C6_hrp_residue_expansion (s : List Nat) (modulus : List Fe) :
    FePoly.hrp_residue s modulus
      = FePoly.polymod (hrpExpandSpec s modulus.length) modulus :=
  hrp_residue_eq s modulus

/-- C7: for field elements with values in [0, 31], `mul` is bit-exact
GF(32) multiplication: the carry-less product of the two 5-bit values
reduced modulo the degree-5 polynomial with bits 5, 3, 0 set (mask 41),
with 1 as multiplicative identity and 0 annihilating. -/
theorem C7_mul_is_gf32 (a b : Fe) (ha : a ≤ 31) (hb : b ≤ 31) :
    Fe.mul a b = gfMul a b ∧ Fe.mul a Fe.one = a ∧ Fe.mul a Fe.zero = Fe.zero :=
  mul_table a (Nat.lt_of_le_of_lt ha (by decide)) b (Nat.lt_of_le_of_lt hb (by decide))

/-- C7 witness: the theorem applied at a = 20, b = 25. -/
theorem C7_mul_is_gf32_witness :
    Fe.mul 20 25 = gfMul 20 25 ∧ Fe.mul 20 Fe.one = 20 ∧ Fe.mul 20 Fe.zero = Fe.zero :=
  C7_mul_is_gf32 20 25 (by decide) (by decide)

/-- C8: field addition is bitwise xor of the two values, hence
commutative, self-inverse (a + a = 0) and cancelling ((a + b) + b = a)
on field elements with values in [0, 31]. -/
theorem C8_add_is_xor (a b : Fe) (_ha : a ≤ 31) (_hb : b ≤ 31) :
    Fe.add a b = Nat.xor a b ∧ Fe.add a b = Fe.add b a
    ∧ Fe.add a a = Fe.zero ∧ Fe.add (Fe.add a b) b = a := by
  refine ⟨rfl, Nat.xor_comm a b, Nat.xor_self a, ?_⟩
  show a ^^^ b ^^^ b = a
  rw [Nat.xor_assoc, Nat.xor_self, Nat.xor_zero]

/-- C8 witness: the theorem applied at a = 12, b = 10. -/
theorem C8_add_is_xor_witness :
    Fe.add 12 10 = Nat.xor 12 10 ∧ Fe.add 12 10 = Fe.add 10 12
    ∧ Fe.add 12 12 = Fe.zero ∧ Fe.add (Fe.add 12 10) 10 = 12 :=
  C8_add_is_xor 12 10 (by decide) (by decide)

/-- C9: indexing a polynomial at or beyond its length yields the
additive identity rather than failing, and below the length it yields
the stored coefficient. -/
theorem C9_index_zero_padded (p : FePoly) (idx : Nat) :
    (p.length ≤ idx → FePoly.index p idx = Fe.zero)
    ∧ ∀ (h : idx < p.length), FePoly.index p idx = p.get ⟨idx, h⟩ := by
  constructor
  · intro h
    unfold FePoly.index
    rw [List.get?_eq_none.mpr h]
    rfl
  · intro h
    unfold FePoly.index
    rw [List.get?_eq_get h]
    rfl

/-- C9 witness: the theorem applied to the polynomial [3, 5] at the
out-of-range index 7 and the in-range index 1. -/
theorem C9_index_zero_padded_witness :
    FePoly.index [3, 5] 7 = Fe.zero ∧ FePoly.index [3, 5] 1 = 5 :=
  ⟨(C9_index_zero_padded [3, 5] 7).1 (by decide),
   ((C9_index_zero_padded [3, 5] 1).2 (by decide)).trans rfl⟩

/-- C10: every polynomial returned by the four public reduction
operations is normalized: its head (if any) is nonzero, and it equals
the suffix of the pre-normalization accumulator starting at the first
nonzero element (the accumulator of `polymod` over the input, or over
the expanded HRP sequence for the HRP operations). -/
theorem C10_public_reductions_normalized (p : FePoly) (s : List Nat) :
    ((FePoly.codex32_polymod p).head? ≠ some ZERO
      ∧ FePoly.codex32_polymod p
          = (FePoly.polymodRaw p CODEX32_POLYMOD).dropWhile (fun e => e == ZERO))
    ∧ ((FePoly.bech32_polymod p).head? ≠ some ZERO
      ∧ FePoly.bech32_polymod p
          = (FePoly.polymodRaw p BECH32_POLYMOD).dropWhile (fun e => e == ZERO))
    ∧ ((FePoly.codex32_hrp_residue s).head? ≠ some ZERO
      ∧ FePoly.codex32_hrp_residue s
          = (FePoly.polymodRaw (hrpExpandSpec s CODEX32_POLYMOD.length)
              CODEX32_POLYMOD).dropWhile (fun e => e == ZERO))
    ∧ ((FePoly.bech32_hrp_residue s).head? ≠ some ZERO
      ∧ FePoly.bech32_hrp_residue s
          = (FePoly.polymodRaw (hrpExpandSpec s BECH32_POLYMOD.length)
              BECH32_POLYMOD).dropWhile (fun e => e == ZERO)) := by
  refine ⟨polymod_normalized p CODEX32_POLYMOD, polymod_normalized p BECH32_POLYMOD, ?_, ?_⟩
  · rw [FePoly.codex32_hrp_residue, hrp_residue_eq]
    exact polymod_normalized _ _
  · rw [FePoly.bech32_hrp_residue, hrp_residue_eq]
    exact polymod_normalized _ _
